import Mathlib

/-!
Verification of the Djit+ vector-clock race detector of this repository.

Two analyzer variants exist in the source and are embedded separately:

* the compile-time-sized `Analyzer<NThread>` of
  `src/pintools/Overflow/Overflow.cpp` (the fixed variant), built on
  `FixedVectorClock<N>` = `std::array<int, N>`; and
* the sparse, map-based detector of `src/pintools/VectorClock/README.md`
  (the sparse variant), built on `VC<int>` = `std::map<THREADID, int>`
  together with `ThreadVCMap` and the free analysis routines
  `Read`, `Write`, `Aquire`, `Release`, `Fork`, `Join`, `CheckOverflow`.

Machine integers (`int`) are embedded as `Int`; clock values start at 0/1
and are only ever incremented or maxed, so wraparound never occurs in any
scenario treated here.  Undefined behavior (an out-of-range `std::array`
index, or dereferencing a past-the-end `std::map` iterator) is embedded
as `Option`, with `none` marking the undefined execution.
-/

/-! ## Association lists: the shallow embedding of `std::map`

The fixed variant keys its per-variable and per-lock tables by
`Variable`/`Lock`, both of which are just ordered wrappers around
`std::string`; the sparse variant keys everything by integers
(`THREADID`, `ADDRINT`, `void*`).  Both are embedded as association
lists.  `std::map` keeps its entries sorted by key; none of the claims
treated below observes the iteration order of these outer maps, so the
association lists place fresh keys at the end instead.  (The *inner*
sparse clock maps, whose iteration order is observable through
`VC::operator<=` and `VC::operator|=`, are kept sorted; see `svcSet`.) -/

/-- `std::map::find`, as a plain association-list lookup. -/
def alookup {κ α : Type} [DecidableEq κ] (k : κ) : List (κ × α) → Option α
  | [] => none
  | (k1, v) :: m => if k1 = k then some v else alookup k m

/-- `std::map::operator[]` followed by assignment: overwrite the entry
for `k` if present, otherwise add one. -/
def aset {κ α : Type} [DecidableEq κ] (k : κ) (v : α) : List (κ × α) → List (κ × α)
  | [] => [(k, v)]
  | (k1, v1) :: m => if k1 = k then (k, v) :: m else (k1, v1) :: aset k v m

/-- `std::map::emplace`, and also the entry-creating effect of reading
through `std::map::operator[]`: insert `(k, v)` only when `k` is absent. -/
def aemplace {κ α : Type} [DecidableEq κ] (k : κ) (v : α) (m : List (κ × α)) :
    List (κ × α) :=
  match alookup k m with
  | some _ => m
  | none => aset k v m

/-- The value read through `std::map::operator[]`: the stored value, or
the default-constructed `d` when the key is absent. -/
def mget {κ α : Type} [DecidableEq κ] (k : κ) (d : α) (m : List (κ × α)) : α :=
  (alookup k m).getD d

theorem alookup_aset_self {κ α : Type} [DecidableEq κ] (k : κ) (v : α)
    (m : List (κ × α)) : alookup k (aset k v m) = some v := by
  induction m with
  | nil => simp [aset, alookup]
  | cons p m ih =>
    obtain ⟨k1, v1⟩ := p
    by_cases h : k1 = k
    · simp [aset, alookup, h]
    · simp [aset, alookup, h, ih]

theorem alookup_aset_ne {κ α : Type} [DecidableEq κ] {k k' : κ} (h : k' ≠ k)
    (v : α) (m : List (κ × α)) : alookup k (aset k' v m) = alookup k m := by
  induction m with
  | nil => simp [aset, alookup, h]
  | cons p m ih =>
    obtain ⟨k1, v1⟩ := p
    by_cases h1 : k1 = k'
    · subst h1
      simp [aset, alookup, h]
    · by_cases h2 : k1 = k
      · simp [aset, alookup, h1, h2, Ne.symm h]
      · simp [aset, alookup, h1, h2, ih]

theorem mget_aset_self {κ α : Type} [DecidableEq κ] (k : κ) (v d : α)
    (m : List (κ × α)) : mget k d (aset k v m) = v := by
  simp [mget, alookup_aset_self]

theorem mget_aset_ne {κ α : Type} [DecidableEq κ] {k k' : κ} (h : k' ≠ k)
    (v d : α) (m : List (κ × α)) : mget k d (aset k' v m) = mget k d m := by
  simp [mget, alookup_aset_ne h]

theorem aemplace_of_isSome {κ α : Type} [DecidableEq κ] {k : κ} {m : List (κ × α)}
    (h : (alookup k m).isSome) (v : α) : aemplace k v m = m := by
  unfold aemplace
  cases hl : alookup k m with
  | none => rw [hl] at h; simp at h
  | some w => rfl

/-- Reading any key after `aemplace k d` with the same default `d`
gives the same value as before: the created entry holds the default. -/
theorem mget_aemplace {κ α : Type} [DecidableEq κ] (k k' : κ) (d : α)
    (m : List (κ × α)) : mget k' d (aemplace k d m) = mget k' d m := by
  unfold aemplace
  cases hl : alookup k m with
  | some w => rfl
  | none =>
    by_cases h : k = k'
    · subst h
      simp [mget, alookup_aset_self, hl]
    · simp [mget, alookup_aset_ne h]

/-! ## The fixed variant: `Analyzer<NThread>` from `Overflow.cpp`

`FixedVectorClock<N>` wraps `std::array<int, N>`; an array of statically
known size `N` is embedded as a total function `Fin N → Int`.  The
analyzer's event operations index the thread-clock array with the
caller-supplied `int t` with no bounds check; an out-of-range index is
undefined behavior on `std::array`, embedded as the `none` result. -/

/-- `FixedVectorClock<N>`: `std::array<int, N>` of logical clocks. -/
def FVC (N : Nat) : Type := Fin N → Int

/-- The value-initialized clock `clocks{}`: all components 0. -/
def FVC.zero (N : Nat) : FVC N := fun _ => 0

/-- Write one component: `vc[t] = v`. -/
def FVC.set {N : Nat} (a : FVC N) (t : Fin N) (v : Int) : FVC N :=
  fun i => if i = t then v else a i

/-- `operator|=` on `FixedVectorClock`: pointwise maximum. -/
def FVC.join {N : Nat} (a b : FVC N) : FVC N := fun i => max (a i) (b i)

/-- `operator<=` on `FixedVectorClock`: the loop returns `false` at the
first `i` with `lhs[i] > rhs[i]`, else `true`. -/
def FVC.vle {N : Nat} (a b : FVC N) : Bool :=
  (List.finRange N).all fun i => decide (a i ≤ b i)

/-- `operator>` on `FixedVectorClock`: `!(lhs <= rhs)`. -/
def FVC.vgt {N : Nat} (a b : FVC N) : Bool := ! FVC.vle a b

theorem FVC.vle_iff {N : Nat} (a b : FVC N) :
    FVC.vle a b = true ↔ ∀ i : Fin N, a i ≤ b i := by
  unfold FVC.vle
  rw [List.all_eq_true]
  constructor
  · intro h i
    have := h i (List.mem_finRange i)
    exact of_decide_eq_true this
  · intro h i _
    exact decide_eq_true (h i)

theorem FVC.vgt_eq_false_iff {N : Nat} (a b : FVC N) :
    FVC.vgt a b = false ↔ ∀ i : Fin N, a i ≤ b i := by
  unfold FVC.vgt
  rw [Bool.not_eq_false']
  exact FVC.vle_iff a b

/-- Update one slot of the `std::array<FixedVectorClock<N>, NThread>`
holding the per-thread clocks. -/
def updT {N : Nat} (f : Fin N → FVC N) (t : Fin N) (v : FVC N) : Fin N → FVC N :=
  fun i => if i = t then v else f i

theorem updT_self {N : Nat} (f : Fin N → FVC N) (t : Fin N) (v : FVC N) :
    updT f t v t = v := by
  simp [updT]

theorem updT_ne {N : Nat} {u t : Fin N} (h : u ≠ t) (f : Fin N → FVC N) (v : FVC N) :
    updT f t v u = f u := by
  simp [updT, h]

theorem FVC.set_self {N : Nat} (a : FVC N) (t : Fin N) (v : Int) :
    FVC.set a t v t = v := by
  simp [FVC.set]

theorem FVC.set_ne {N : Nat} {i t : Fin N} (h : i ≠ t) (a : FVC N) (v : Int) :
    FVC.set a t v i = a i := by
  simp [FVC.set, h]

/-- A race report delivered to a violation handler of `Analyzer`. -/
inductive AccessKind : Type
  | read
  | write
deriving DecidableEq

structure Viol : Type where
  kind : AccessKind
  tid : Nat
  var : String
deriving DecidableEq

/-- The state of `Analyzer<NThread>`: the thread-clock array and the
variable/lock tables, plus the `variables_` and `locks_` vectors kept by
`Register`. -/
structure AState (N : Nat) : Type where
  thread_vc : Fin N → FVC N
  read_vc : List (String × FVC N)
  write_vc : List (String × FVC N)
  lock_vc : List (String × FVC N)
  vars : List String
  locks : List String

/-- The `Analyzer` constructor: zero clocks, then `thread_vc_[i][i] = 1`
for every `i < NThread`; all maps and vectors empty. -/
def initA (N : Nat) : AState N :=
  { thread_vc := fun i => FVC.set (FVC.zero N) i 1
    read_vc := []
    write_vc := []
    lock_vc := []
    vars := []
    locks := [] }

/-- `Analyzer::Read(t, x)`: `read_vc_[x][t] = thread_vc_[t][t];` then the
handler fires when `write_vc_[x] > thread_vc_[t]`.  The comparison reads
`write_vc_[x]` through `operator[]`, creating a zero entry when absent.
`t` out of `[0, NThread)` is undefined behavior: `none`.  The returned
`Bool` tells whether the read-violation handler is invoked. -/
def readA {N : Nat} (s : AState N) (t : Nat) (x : String) :
    Option (AState N × Bool) :=
  if h : t < N then
    let tf : Fin N := ⟨t, h⟩
    let own := s.thread_vc tf tf
    let read1 := aset x (FVC.set (mget x (FVC.zero N) s.read_vc) tf own) s.read_vc
    let write1 := aemplace x (FVC.zero N) s.write_vc
    some ({ s with read_vc := read1, write_vc := write1 },
          FVC.vgt (mget x (FVC.zero N) write1) (s.thread_vc tf))
  else none

/-- `Analyzer::Write(t, x)`: `write_vc_[x][t] = thread_vc_[t][t];` then
the handler fires when `write_vc_[x] > thread_vc_[t] || read_vc_[x] >
thread_vc_[t]`.  The `||` short-circuits: `read_vc_[x]` is only read
(and its entry only created) when the first disjunct is false. -/
def writeA {N : Nat} (s : AState N) (t : Nat) (x : String) :
    Option (AState N × Bool) :=
  if h : t < N then
    let tf : Fin N := ⟨t, h⟩
    let own := s.thread_vc tf tf
    let write1 := aset x (FVC.set (mget x (FVC.zero N) s.write_vc) tf own) s.write_vc
    if FVC.vgt (mget x (FVC.zero N) write1) (s.thread_vc tf) then
      some ({ s with write_vc := write1 }, true)
    else
      let read1 := aemplace x (FVC.zero N) s.read_vc
      some ({ s with write_vc := write1, read_vc := read1 },
            FVC.vgt (mget x (FVC.zero N) read1) (s.thread_vc tf))
  else none

/-- `Analyzer::Acquire(t, m)`: `thread_vc_[t] |= lock_vc_[m];`.
`lock_vc_[m]` is read through `operator[]`, creating a zero entry when
absent. -/
def acquireA {N : Nat} (s : AState N) (t : Nat) (m : String) :
    Option (AState N) :=
  if h : t < N then
    let tf : Fin N := ⟨t, h⟩
    let lock1 := aemplace m (FVC.zero N) s.lock_vc
    some { s with
            thread_vc := updT s.thread_vc tf
              (FVC.join (s.thread_vc tf) (mget m (FVC.zero N) lock1))
            lock_vc := lock1 }
  else none

/-- `Analyzer::Release(t, m)`: `++thread_vc_[t][t];` then
`lock_vc_[m] = thread_vc_[t];` (the incremented clock is published). -/
def releaseA {N : Nat} (s : AState N) (t : Nat) (m : String) :
    Option (AState N) :=
  if h : t < N then
    let tf : Fin N := ⟨t, h⟩
    let c1 := FVC.set (s.thread_vc tf) tf (s.thread_vc tf tf + 1)
    some { s with
            thread_vc := updT s.thread_vc tf c1
            lock_vc := aset m c1 s.lock_vc }
  else none

/-- `Analyzer::Register(const Variable&)`: `variables_.push_back(x);`
then `emplace` zero clocks into both variable tables. -/
def registerVarA {N : Nat} (s : AState N) (x : String) : AState N :=
  { s with
      vars := s.vars ++ [x]
      read_vc := aemplace x (FVC.zero N) s.read_vc
      write_vc := aemplace x (FVC.zero N) s.write_vc }

/-- `Analyzer::Register(const Lock&)`: `locks_.push_back(m);` then
`emplace` a zero clock into the lock table. -/
def registerLockA {N : Nat} (s : AState N) (m : String) : AState N :=
  { s with
      locks := s.locks ++ [m]
      lock_vc := aemplace m (FVC.zero N) s.lock_vc }

/-- One event delivered to the fixed-variant analyzer, as scripted by
the demo driver `src/djit-plus-vc/main.cpp`. -/
inductive Ev : Type
  | rd (t : Nat) (x : String)
  | wr (t : Nat) (x : String)
  | acq (t : Nat) (m : String)
  | rel (t : Nat) (m : String)
  | regV (x : String)
  | regL (m : String)

/-- Dispatch one event to the corresponding `Analyzer` method, recording
the violation reports it hands to the installed handlers. -/
def stepA {N : Nat} (s : AState N) : Ev → Option (AState N × List Viol)
  | .rd t x => (readA s t x).map fun p =>
      (p.1, if p.2 then [⟨AccessKind.read, t, x⟩] else [])
  | .wr t x => (writeA s t x).map fun p =>
      (p.1, if p.2 then [⟨AccessKind.write, t, x⟩] else [])
  | .acq t m => (acquireA s t m).map fun s1 => (s1, [])
  | .rel t m => (releaseA s t m).map fun s1 => (s1, [])
  | .regV x => some (registerVarA s x, [])
  | .regL m => some (registerLockA s m, [])

/-- Run a sequence of events, accumulating every violation reported. -/
def runA {N : Nat} (s : AState N) : List Ev → Option (AState N × List Viol)
  | [] => some (s, [])
  | e :: evs =>
      (stepA s e).bind fun p =>
        (runA p.1 evs).map fun q => (q.1, p.2 ++ q.2)

/-! ## Reachability invariants of the fixed-variant analyzer

`InvA` packages the clock invariants that every state reachable from the
`Analyzer` constructor satisfies: each thread's own component is at
least 1, no clock's view of a thread exceeds that thread's own
component, and the lock/read/write tables are bounded by the owning
thread's component. -/

def InvA {N : Nat} (s : AState N) : Prop :=
  (∀ t : Fin N, 1 ≤ s.thread_vc t t) ∧
  (∀ u t : Fin N, s.thread_vc u t ≤ s.thread_vc t t) ∧
  (∀ (m : String) (t : Fin N), mget m (FVC.zero N) s.lock_vc t ≤ s.thread_vc t t) ∧
  (∀ (x : String) (t : Fin N),
     mget x (FVC.zero N) s.read_vc t ≤ s.thread_vc t t ∧
     mget x (FVC.zero N) s.write_vc t ≤ s.thread_vc t t)

theorem initA_invA {N : Nat} : InvA (initA N) := by
  refine ⟨?_, ?_, ?_, ?_⟩
  · intro t
    simp [initA, FVC.set, FVC.zero]
  · intro u t
    simp only [initA, FVC.set, FVC.zero]
    by_cases h : t = u <;> simp [h]
  · intro m t
    simp [initA, mget, alookup, FVC.set, FVC.zero]
  · intro x t
    simp [initA, mget, alookup, FVC.set, FVC.zero]

theorem invA_readA {N : Nat} {s s1 : AState N} {t : Nat} {x : String} {b : Bool}
    (hs : InvA s) (h : readA s t x = some (s1, b)) : InvA s1 := by
  obtain ⟨h1, h2, h3, h4⟩ := hs
  unfold readA at h
  split at h
  case isFalse ht => simp at h
  case isTrue ht =>
    dsimp only at h
    simp only [Option.some.injEq, Prod.mk.injEq] at h
    obtain ⟨hst, -⟩ := h
    subst hst
    refine ⟨h1, h2, fun m t' => h3 m t', ?_⟩
    intro x' t'
    refine ⟨?_, ?_⟩
    · show mget x' (FVC.zero N) (aset x _ s.read_vc) t' ≤ s.thread_vc t' t'
      by_cases hx : x = x'
      · subst hx
        rw [mget_aset_self]
        by_cases htt : t' = ⟨t, ht⟩
        · subst htt
          rw [FVC.set_self]
        · rw [FVC.set_ne htt]
          exact (h4 x t').1
      · rw [mget_aset_ne hx]
        exact (h4 x' t').1
    · show mget x' (FVC.zero N) (aemplace x (FVC.zero N) s.write_vc) t' ≤ s.thread_vc t' t'
      rw [mget_aemplace]
      exact (h4 x' t').2

theorem invA_writeA {N : Nat} {s s1 : AState N} {t : Nat} {x : String} {b : Bool}
    (hs : InvA s) (h : writeA s t x = some (s1, b)) : InvA s1 := by
  obtain ⟨h1, h2, h3, h4⟩ := hs
  unfold writeA at h
  split at h
  case isFalse ht => simp at h
  case isTrue ht =>
    dsimp only at h
    have hwr : ∀ x' (t' : Fin N),
        mget x' (FVC.zero N)
          (aset x (FVC.set (mget x (FVC.zero N) s.write_vc) ⟨t, ht⟩
            (s.thread_vc ⟨t, ht⟩ ⟨t, ht⟩)) s.write_vc) t' ≤ s.thread_vc t' t' := by
      intro x' t'
      by_cases hx : x = x'
      · subst hx
        rw [mget_aset_self]
        by_cases htt : t' = ⟨t, ht⟩
        · subst htt
          rw [FVC.set_self]
        · rw [FVC.set_ne htt]
          exact (h4 x t').2
      · rw [mget_aset_ne hx]
        exact (h4 x' t').2
    split at h
    case isTrue hv =>
      simp only [Option.some.injEq, Prod.mk.injEq] at h
      obtain ⟨hst, -⟩ := h
      subst hst
      exact ⟨h1, h2, fun m t' => h3 m t',
             fun x' t' => ⟨(h4 x' t').1, hwr x' t'⟩⟩
    case isFalse hv =>
      simp only [Option.some.injEq, Prod.mk.injEq] at h
      obtain ⟨hst, -⟩ := h
      subst hst
      refine ⟨h1, h2, fun m t' => h3 m t', ?_⟩
      intro x' t'
      refine ⟨?_, hwr x' t'⟩
      show mget x' (FVC.zero N) (aemplace x (FVC.zero N) s.read_vc) t' ≤ s.thread_vc t' t'
      rw [mget_aemplace]
      exact (h4 x' t').1

theorem invA_acquireA {N : Nat} {s s1 : AState N} {t : Nat} {m : String}
    (hs : InvA s) (h : acquireA s t m = some s1) : InvA s1 := by
  obtain ⟨h1, h2, h3, h4⟩ := hs
  unfold acquireA at h
  split at h
  case isFalse ht => simp at h
  case isTrue ht =>
    dsimp only at h
    simp only [Option.some.injEq] at h
    subst h
    have hlm : ∀ t' : Fin N,
        mget m (FVC.zero N) (aemplace m (FVC.zero N) s.lock_vc) t' ≤ s.thread_vc t' t' := by
      intro t'
      rw [mget_aemplace]
      exact h3 m t'
    have hmono : ∀ t' : Fin N,
        s.thread_vc t' t' ≤ updT s.thread_vc ⟨t, ht⟩
          (FVC.join (s.thread_vc ⟨t, ht⟩)
            (mget m (FVC.zero N) (aemplace m (FVC.zero N) s.lock_vc))) t' t' := by
      intro t'
      by_cases htt : t' = ⟨t, ht⟩
      · subst htt
        rw [updT_self]
        exact le_max_left _ _
      · rw [updT_ne htt]
    refine ⟨?_, ?_, ?_, ?_⟩
    · intro t'
      exact le_trans (h1 t') (hmono t')
    · intro u t'
      show updT _ _ _ u t' ≤ updT _ _ _ t' t'
      by_cases hu : u = ⟨t, ht⟩
      · subst hu
        rw [updT_self]
        show max _ _ ≤ _
        exact max_le (le_trans (h2 ⟨t, ht⟩ t') (hmono t')) (le_trans (hlm t') (hmono t'))
      · rw [updT_ne hu]
        exact le_trans (h2 u t') (hmono t')
    · intro m' t'
      show mget m' (FVC.zero N) (aemplace m (FVC.zero N) s.lock_vc) t' ≤ _
      rw [mget_aemplace]
      exact le_trans (h3 m' t') (hmono t')
    · intro x' t'
      exact ⟨le_trans (h4 x' t').1 (hmono t'), le_trans (h4 x' t').2 (hmono t')⟩

theorem invA_releaseA {N : Nat} {s s1 : AState N} {t : Nat} {m : String}
    (hs : InvA s) (h : releaseA s t m = some s1) : InvA s1 := by
  obtain ⟨h1, h2, h3, h4⟩ := hs
  unfold releaseA at h
  split at h
  case isFalse ht => simp at h
  case isTrue ht =>
    dsimp only at h
    simp only [Option.some.injEq] at h
    subst h
    have hmono : ∀ t' : Fin N,
        s.thread_vc t' t' ≤ updT s.thread_vc ⟨t, ht⟩
          (FVC.set (s.thread_vc ⟨t, ht⟩) ⟨t, ht⟩ (s.thread_vc ⟨t, ht⟩ ⟨t, ht⟩ + 1)) t' t' := by
      intro t'
      by_cases htt : t' = ⟨t, ht⟩
      · subst htt
        rw [updT_self, FVC.set_self]
        omega
      · rw [updT_ne htt]
    have hnew : ∀ t' : Fin N,
        FVC.set (s.thread_vc ⟨t, ht⟩) ⟨t, ht⟩ (s.thread_vc ⟨t, ht⟩ ⟨t, ht⟩ + 1) t'
          ≤ updT s.thread_vc ⟨t, ht⟩
              (FVC.set (s.thread_vc ⟨t, ht⟩) ⟨t, ht⟩ (s.thread_vc ⟨t, ht⟩ ⟨t, ht⟩ + 1)) t' t' := by
      intro t'
      by_cases htt : t' = ⟨t, ht⟩
      · subst htt
        rw [updT_self]
      · rw [FVC.set_ne htt, updT_ne htt]
        exact h2 ⟨t, ht⟩ t'
    refine ⟨?_, ?_, ?_, ?_⟩
    · intro t'
      exact le_trans (h1 t') (hmono t')
    · intro u t'
      show updT _ _ _ u t' ≤ updT _ _ _ t' t'
      by_cases hu : u = ⟨t, ht⟩
      · subst hu
        rw [updT_self]
        exact hnew t'
      · rw [updT_ne hu]
        exact le_trans (h2 u t') (hmono t')
    · intro m' t'
      show mget m' (FVC.zero N) (aset m _ s.lock_vc) t' ≤ _
      by_cases hm : m = m'
      · subst hm
        rw [mget_aset_self]
        exact hnew t'
      · rw [mget_aset_ne hm]
        exact le_trans (h3 m' t') (hmono t')
    · intro x' t'
      exact ⟨le_trans (h4 x' t').1 (hmono t'), le_trans (h4 x' t').2 (hmono t')⟩

theorem invA_registerVarA {N : Nat} {s : AState N} (hs : InvA s) (x : String) :
    InvA (registerVarA s x) := by
  obtain ⟨h1, h2, h3, h4⟩ := hs
  refine ⟨h1, h2, fun m t' => h3 m t', ?_⟩
  intro x' t'
  constructor
  · show mget x' (FVC.zero N) (aemplace x (FVC.zero N) s.read_vc) t' ≤ _
    rw [mget_aemplace]
    exact (h4 x' t').1
  · show mget x' (FVC.zero N) (aemplace x (FVC.zero N) s.write_vc) t' ≤ _
    rw [mget_aemplace]
    exact (h4 x' t').2

theorem invA_registerLockA {N : Nat} {s : AState N} (hs : InvA s) (m : String) :
    InvA (registerLockA s m) := by
  obtain ⟨h1, h2, h3, h4⟩ := hs
  refine ⟨h1, h2, ?_, fun x' t' => h4 x' t'⟩
  intro m' t'
  show mget m' (FVC.zero N) (aemplace m (FVC.zero N) s.lock_vc) t' ≤ _
  rw [mget_aemplace]
  exact h3 m' t'

theorem invA_stepA {N : Nat} {s s1 : AState N} {e : Ev} {vs : List Viol}
    (hs : InvA s) (h : stepA s e = some (s1, vs)) : InvA s1 := by
  cases e with
  | rd t x =>
    simp only [stepA, Option.map_eq_some'] at h
    obtain ⟨⟨p1, p2⟩, hp, hq⟩ := h
    simp only [Prod.mk.injEq] at hq
    obtain ⟨hq1, -⟩ := hq
    subst hq1
    exact invA_readA hs hp
  | wr t x =>
    simp only [stepA, Option.map_eq_some'] at h
    obtain ⟨⟨p1, p2⟩, hp, hq⟩ := h
    simp only [Prod.mk.injEq] at hq
    obtain ⟨hq1, -⟩ := hq
    subst hq1
    exact invA_writeA hs hp
  | acq t m =>
    simp only [stepA, Option.map_eq_some'] at h
    obtain ⟨p, hp, hq⟩ := h
    simp only [Prod.mk.injEq] at hq
    obtain ⟨hq1, -⟩ := hq
    subst hq1
    exact invA_acquireA hs hp
  | rel t m =>
    simp only [stepA, Option.map_eq_some'] at h
    obtain ⟨p, hp, hq⟩ := h
    simp only [Prod.mk.injEq] at hq
    obtain ⟨hq1, -⟩ := hq
    subst hq1
    exact invA_releaseA hs hp
  | regV x =>
    simp only [stepA, Option.some.injEq, Prod.mk.injEq] at h
    obtain ⟨h1, -⟩ := h
    subst h1
    exact invA_registerVarA hs x
  | regL m =>
    simp only [stepA, Option.some.injEq, Prod.mk.injEq] at h
    obtain ⟨h1, -⟩ := h
    subst h1
    exact invA_registerLockA hs m

theorem invA_runA {N : Nat} : ∀ (evs : List Ev) (s s1 : AState N) (vs : List Viol),
    InvA s → runA s evs = some (s1, vs) → InvA s1 := by
  intro evs
  induction evs with
  | nil =>
    intro s s1 vs hs h
    simp only [runA, Option.some.injEq, Prod.mk.injEq] at h
    obtain ⟨h1, -⟩ := h
    subst h1
    exact hs
  | cons e evs ih =>
    intro s s1 vs hs h
    simp only [runA, Option.bind_eq_some] at h
    obtain ⟨⟨sm, vm⟩, hstep, hrest⟩ := h
    simp only [Option.map_eq_some'] at hrest
    obtain ⟨⟨s2, v2⟩, hrun, hq⟩ := hrest
    simp only [Prod.mk.injEq] at hq
    obtain ⟨hq1, -⟩ := hq
    exact hq1 ▸ ih sm s2 v2 (invA_stepA hs hstep) hrun

/-! ## Claims about the fixed variant -/

/-- The lock-protected scenario S2 of the spec, as scripted by the demo
driver `src/djit-plus-vc/main.cpp` with `PROTECT_BY_LOCK` defined:
register `x` and `m`, then
`acq(0,m) rd(0,x) wr(0,x) rel(0,m) acq(1,m) rd(1,x) wr(1,x) rel(1,m)`. -/
def s2Events : List Ev :=
  [Ev.regV "x", Ev.regL "m",
   Ev.acq 0 "m", Ev.rd 0 "x", Ev.wr 0 "x", Ev.rel 0 "m",
   Ev.acq 1 "m", Ev.rd 1 "x", Ev.wr 1 "x", Ev.rel 1 "m"]

/-- C1: starting from the two-thread initial state (`C[0] = <1,0>`,
`C[1] = <0,1>`, `R[x] = W[x] = L[m] = <0,0>` after registration), the
event sequence `acq(0,m) rd(0,x) wr(0,x) rel(0,m) acq(1,m) rd(1,x)
wr(1,x) rel(1,m)` invokes no read- or write-violation handler, and the
final state has `L[m][0] = 2`, `L[m][1] = 2`, `C[0] = <2,0>` and
`C[1] = <2,2>`. -/
theorem c1_s2_scenario :
    ((runA (initA 2) s2Events).map fun p => p.2) = some [] ∧
    ((runA (initA 2) s2Events).map fun p => mget "m" (FVC.zero 2) p.1.lock_vc 0)
      = some 2 ∧
    ((runA (initA 2) s2Events).map fun p => mget "m" (FVC.zero 2) p.1.lock_vc 1)
      = some 2 ∧
    ((runA (initA 2) s2Events).map fun p => (p.1.thread_vc 0 0, p.1.thread_vc 0 1))
      = some (2, 0) ∧
    ((runA (initA 2) s2Events).map fun p => (p.1.thread_vc 1 0, p.1.thread_vc 1 1))
      = some (2, 2) := by
  decide

/-- C2, counterexample: in the reachable state obtained by registering
`x` and letting thread 1 write `x`, a `Write(0, x)` immediately
followed by `Read(0, x)` *does* invoke the read-violation handler: the
run below reports a write violation at `wr(0,x)` and then a read
violation at the immediately following `rd(0,x)` of the same thread on
the same variable.  The claim that such a read never reports a race is
therefore false of the code. -/
theorem c2_counterexample :
    ((runA (initA 2) [Ev.regV "x", Ev.wr 1 "x", Ev.wr 0 "x", Ev.rd 0 "x"]).map
      fun p => p.2)
    = some [⟨AccessKind.write, 0, "x"⟩, ⟨AccessKind.read, 0, "x"⟩] := by
  decide

/-- C2, amended: a read immediately following a write by the same
thread on the same variable reports no race *provided the write itself
reported none*.  `Write(t,x)` installs `W[x][t] = C[t][t]` and then
checks `W[x] ⊑ C[t]`; if that check passed, the immediately following
`Read(t,x)` checks the same unchanged `W[x]` against the same `C[t]`,
so it passes too. -/
theorem c2_write_then_read_amended {N : Nat} (s s1 : AState N) (t : Nat) (x : String)
    (h : writeA s t x = some (s1, false)) :
    (readA s1 t x).map (fun p => p.2) = some false := by
  unfold writeA at h
  split at h
  case isFalse ht => simp at h
  case isTrue ht =>
    dsimp only at h
    split at h
    case isTrue hv => simp at h
    case isFalse hv =>
      simp only [Option.some.injEq, Prod.mk.injEq] at h
      obtain ⟨h1, -⟩ := h
      subst h1
      rw [Bool.not_eq_true] at hv
      unfold readA
      rw [dif_pos ht]
      dsimp only
      simp only [Option.map_some']
      rw [mget_aemplace, mget_aset_self]
      rw [mget_aset_self] at hv
      simp [hv]

def c2s0 : AState 2 := registerVarA (initA 2) "x"

def c2s1 : AState 2 := ((writeA c2s0 0 "x").map Prod.fst).getD c2s0

/-- C2, witness: on the freshly registered variable `x`, thread 0's
write reports no violation, and the amended theorem then yields that
the immediately following read reports none either. -/
theorem c2_witness : (readA c2s1 0 "x").map (fun p => p.2) = some false :=
  c2_write_then_read_amended c2s0 c2s1 0 "x" (by rfl)

/-- C3: in every state reachable by any event sequence from the
initial state, every variable `x` and every thread `t` satisfy
`R[x][t] ≤ C[t][t]` and `W[x][t] ≤ C[t][t]` (an unregistered variable's
clocks read as zero). -/
theorem c3_read_write_bounded_by_own (N : Nat) (evs : List Ev) (s : AState N)
    (vs : List Viol) (h : runA (initA N) evs = some (s, vs))
    (x : String) (t : Fin N) :
    mget x (FVC.zero N) s.read_vc t ≤ s.thread_vc t t ∧
    mget x (FVC.zero N) s.write_vc t ≤ s.thread_vc t t :=
  (invA_runA evs (initA N) s vs initA_invA h).2.2.2 x t

/-- C3, witness: the initial two-thread state itself (the empty event
sequence), at variable `x` and thread 0. -/
theorem c3_witness :
    mget "x" (FVC.zero 2) (initA 2).read_vc 0 ≤ (initA 2).thread_vc 0 0 ∧
    mget "x" (FVC.zero 2) (initA 2).write_vc 0 ≤ (initA 2).thread_vc 0 0 :=
  c3_read_write_bounded_by_own 2 [] (initA 2) [] rfl "x" 0

/-- C4: release strictly increases the releasing thread's own
component of the lock clock.  In any reachable state, `Release(t, m)`
first increments `C[t][t]` and then copies `C[t]` into `L[m]`, and the
reachability invariant `L[m][t] ≤ C[t][t]` makes the new `L[m][t]`
strictly greater than the old one. -/
theorem c4_release_monotonic (N : Nat) (evs : List Ev) (s : AState N)
    (vs : List Viol) (t : Nat) (m : String) (s1 : AState N) (ht : t < N)
    (h : runA (initA N) evs = some (s, vs)) (hr : releaseA s t m = some s1) :
    mget m (FVC.zero N) s.lock_vc ⟨t, ht⟩ < mget m (FVC.zero N) s1.lock_vc ⟨t, ht⟩ := by
  have hinv := invA_runA evs (initA N) s vs initA_invA h
  unfold releaseA at hr
  rw [dif_pos ht] at hr
  dsimp only at hr
  simp only [Option.some.injEq] at hr
  subst hr
  show _ < mget m (FVC.zero N) (aset m _ s.lock_vc) ⟨t, ht⟩
  rw [mget_aset_self, FVC.set_self]
  have hL := hinv.2.2.1 m ⟨t, ht⟩
  omega

def c4s1 : AState 2 := (releaseA (initA 2) 0 "m").getD (initA 2)

/-- C4, witness: releasing `m` on the initial two-thread state takes
`L[m][0]` from 0 to 2. -/
theorem c4_witness :
    mget "m" (FVC.zero 2) (initA 2).lock_vc 0 < mget "m" (FVC.zero 2) c4s1.lock_vc 0 :=
  c4_release_monotonic 2 [] (initA 2) [] 0 "m" c4s1 (by decide) rfl (by rfl)

/-- C5, counterexample: registering the already-registered variable `x`
a second time is *not* a no-op: `Register` unconditionally does
`variables_.push_back(x)`, so the enumeration returned by
`GetVariables()` changes (it now lists `x` twice). -/
theorem c5_counterexample :
    (registerVarA (registerVarA (initA 2) "x") "x").vars
      ≠ (registerVarA (initA 2) "x").vars := by
  decide

/-- C5, amended: registering an already-registered variable (resp.
lock) leaves all clock state unchanged — the `emplace` calls are no-ops
on the present keys — but appends a duplicate entry to the `variables_`
(resp. `locks_`) vector, so the enumerations returned by
`GetVariables()`/`GetLocks()` do change. -/
theorem c5_register_amended {N : Nat} (s : AState N) (x m : String)
    (hx : (alookup x s.read_vc).isSome) (hw : (alookup x s.write_vc).isSome)
    (hm : (alookup m s.lock_vc).isSome) :
    registerVarA s x = { s with vars := s.vars ++ [x] } ∧
    registerLockA s m = { s with locks := s.locks ++ [m] } := by
  unfold registerVarA registerLockA
  rw [aemplace_of_isSome hx, aemplace_of_isSome hw, aemplace_of_isSome hm]
  exact ⟨rfl, rfl⟩

def c5ws : AState 2 := registerLockA (registerVarA (initA 2) "x") "m"

/-- C5, witness: the state with `x` and `m` registered once. -/
theorem c5_witness :
    registerVarA c5ws "x" = { c5ws with vars := c5ws.vars ++ ["x"] } ∧
    registerLockA c5ws "m" = { c5ws with locks := c5ws.locks ++ ["m"] } :=
  c5_register_amended c5ws "x" "m" (by decide) (by decide) (by decide)

/-- C10: every event operation of `Analyzer<NThread>` indexes the
thread-clock array with the caller-supplied thread id and no bounds
check; all of its accesses are in bounds (the undefined out-of-range
branch, embedded as `none`, is not taken) exactly when `t < NThread`.
The forward direction shows the precondition suffices for every state;
the backward direction shows it is required: for `t ≥ NThread` every
operation falls into the out-of-range branch. -/
theorem c10_thread_index_bounds {N : Nat} (s : AState N) (t : Nat) (x m : String) :
    ((readA s t x).isSome ∧ (writeA s t x).isSome ∧
     (acquireA s t m).isSome ∧ (releaseA s t m).isSome) ↔ t < N := by
  constructor
  · intro h
    rcases Nat.lt_or_ge t N with ht | ht
    · exact ht
    · exfalso
      have h1 := h.1
      simp [readA, Nat.not_lt.mpr ht] at h1
  · intro ht
    simp only [readA, writeA, acquireA, releaseA, dif_pos ht]
    refine ⟨by simp, ?_, by simp, by simp⟩
    dsimp only
    split <;> simp

/-! ## The sparse variant: the `VectorClock` pintool

`VC<int>` is a `std::map<THREADID, int>`.  The clock map is embedded as
an association list kept sorted by key — the iteration order of
`std::map` — because `VC::operator<=` and `VC::operator|=` iterate the
entries and their effects are key-order dependent in general.  The
outer tables (`thread_vc`, `read_vc`, `write_vc`, `lock_vc`,
`thread_to_id`) are never iterated by the routines treated here and use
the plain association-list operations above. -/

/-- `VC<int>::clocks_`: a sparse clock map, sorted by thread id. -/
abbrev SVC : Type := List (Nat × Int)

/-- `clocks_.find(tid)`. -/
def svcFind (k : Nat) : SVC → Option Int
  | [] => none
  | (k1, v) :: m => if k1 = k then some v else svcFind k m

/-- `clocks_[tid] = v`: overwrite, or insert at the sorted position. -/
def svcSet (k : Nat) (v : Int) : SVC → SVC
  | [] => [(k, v)]
  | (k1, v1) :: m =>
      if k = k1 then (k, v) :: m
      else if k < k1 then (k, v) :: (k1, v1) :: m
      else (k1, v1) :: svcSet k v m

/-- The value read through `VC::operator[]`; an absent entry reads as
the value-initialized 0. -/
def svcVal (k : Nat) (m : SVC) : Int := (svcFind k m).getD 0

/-- The entry-creating effect of reading through `VC::operator[]`:
insert `(k, 0)` when `k` is absent. -/
def svcCreate (k : Nat) (m : SVC) : SVC :=
  match svcFind k m with
  | some _ => m
  | none => svcSet k 0 m

/-- `VC::operator|=`: for each entry `(tid, v)` of `rhs` in map order,
`clocks_[tid]` is created (as 0) when absent, then raised to `v` when
smaller.  The embedding acts on a snapshot of `rhs`; no routine treated
below joins a clock with itself. -/
def svcJoin (lhs : SVC) : List (Nat × Int) → SVC
  | [] => lhs
  | (k, v) :: rest =>
      let l1 := svcCreate k lhs
      svcJoin (if svcVal k l1 < v then svcSet k v l1 else l1) rest

/-- `VC::operator<=`: iterate the lhs entries in map order.  An lhs
entry `(tid, v)` absent from rhs returns `false` when `v > 0`; when
`v ≤ 0` the code falls into the `else if (v > it->second)` branch and
dereferences the past-the-end iterator — undefined behavior, embedded
as `none`.  A present entry returns `false` when `v` exceeds the rhs
value, else the loop continues. -/
def svcLe : SVC → SVC → Option Bool
  | [], _ => some true
  | (k, v) :: rest, rhs =>
      match svcFind k rhs with
      | none => if 0 < v then some false else none
      | some w => if w < v then some false else svcLe rest rhs

/-- `VC::operator>`: `!(*this <= rhs)`, undefinedness propagated. -/
def svcGt (a b : SVC) : Option Bool := (svcLe a b).map fun r => !r

/-- `ThreadVCMap::operator[]`, creation part: when `tid` is absent,
`m_[tid][tid] = 1` installs the clock `{tid ↦ 1}`. -/
def tvmCreate (tid : Nat) (m : List (Nat × SVC)) : List (Nat × SVC) :=
  match alookup tid m with
  | some _ => m
  | none => aset tid (svcSet tid 1 []) m

/-- The clock returned by `ThreadVCMap::operator[]`. -/
def tvmGet (tid : Nat) (m : List (Nat × SVC)) : SVC :=
  (alookup tid (tvmCreate tid m)).getD []

/-- The global mutable state of the sparse detector: `thread_vc` (a
`ThreadVCMap`), the per-address `read_vc`/`write_vc`/`lock_vc` tables,
the `thread_to_id` handle map of `Fork`/`Join`, and the `static
THREADID last_id` counter of `Fork`.  `void*` thread handles are
embedded as `Nat`. -/
structure SState : Type where
  thread_vc : List (Nat × SVC)
  read_vc : List (Nat × SVC)
  write_vc : List (Nat × SVC)
  lock_vc : List (Nat × SVC)
  thread_to_id : List (Nat × Nat)
  last_id : Nat
deriving DecidableEq

/-- The state at tool start: every table empty, `last_id = 0`. -/
def emptyS : SState :=
  { thread_vc := []
    read_vc := []
    write_vc := []
    lock_vc := []
    thread_to_id := []
    last_id := 0 }

/-- `Read(tid, mem_addr)`:
`read_vc[mem_addr][tid] = thread_vc[tid][tid];` with every `operator[]`
creating its entry. -/
def sRead (s : SState) (tid addr : Nat) : SState :=
  let tm := tvmCreate tid s.thread_vc
  let tvc := tvmGet tid s.thread_vc
  let own := svcVal tid tvc
  let tm2 := aset tid (svcCreate tid tvc) tm
  let rm := aemplace addr ([] : SVC) s.read_vc
  { s with
      thread_vc := tm2
      read_vc := aset addr (svcSet tid own ((alookup addr rm).getD [])) rm }

/-- `Write(tid, mem_addr)`:
`write_vc[mem_addr][tid] = thread_vc[tid][tid];`. -/
def sWrite (s : SState) (tid addr : Nat) : SState :=
  let tm := tvmCreate tid s.thread_vc
  let tvc := tvmGet tid s.thread_vc
  let own := svcVal tid tvc
  let tm2 := aset tid (svcCreate tid tvc) tm
  let wm := aemplace addr ([] : SVC) s.write_vc
  { s with
      thread_vc := tm2
      write_vc := aset addr (svcSet tid own ((alookup addr wm).getD [])) wm }

/-- `Aquire(tid, lock_addr)`: `thread_vc[tid] |= lock_vc[lock_addr];`
(`lock_vc[lock_addr]` creates an empty clock when absent). -/
def sAcquire (s : SState) (tid laddr : Nat) : SState :=
  let tvc := tvmGet tid s.thread_vc
  let tm := tvmCreate tid s.thread_vc
  let lm := aemplace laddr ([] : SVC) s.lock_vc
  let lvc := (alookup laddr lm).getD []
  { s with
      thread_vc := aset tid (svcJoin tvc lvc) tm
      lock_vc := lm }

/-- `Release(tid, lock_addr)`: `lock_vc[lock_addr] = thread_vc[tid];`
then `++thread_vc[tid][tid];` — copy first, then increment, unlike the
fixed variant. -/
def sRelease (s : SState) (tid laddr : Nat) : SState :=
  let tm := tvmCreate tid s.thread_vc
  let tvc := tvmGet tid s.thread_vc
  let lm := aset laddr tvc s.lock_vc
  let own := svcVal tid tvc
  { s with
      thread_vc := aset tid (svcSet tid (own + 1) (svcCreate tid tvc)) tm
      lock_vc := lm }

/-- `Fork(tid, thread_obj)`: `++last_id;`
`thread_to_id[thread_obj] = last_id;`
`thread_vc[last_id] |= thread_vc[tid];` (both sides lazily created)
then `++thread_vc[tid][tid];`. -/
def sFork (s : SState) (tid hobj : Nat) : SState :=
  let u := s.last_id + 1
  let t2i := aset hobj u s.thread_to_id
  let tm1 := tvmCreate u s.thread_vc
  let uvc := tvmGet u s.thread_vc
  let tm2 := tvmCreate tid tm1
  let tvc := (alookup tid tm2).getD []
  let tm3 := aset u (svcJoin uvc tvc) tm2
  let tvc2 := (alookup tid tm3).getD []
  let own := svcVal tid tvc2
  { s with
      last_id := u
      thread_to_id := t2i
      thread_vc := aset tid (svcSet tid (own + 1) (svcCreate tid tvc2)) tm3 }

/-- `Join(tid, thread_obj)`:
`const auto join_id = thread_to_id[thread_obj];` (`operator[]` creates
the entry with value-initialized id 0 when the handle is unbound), then
`thread_vc[tid] |= thread_vc[join_id];` and
`++thread_vc[join_id][join_id];`. -/
def sJoin (s : SState) (tid hobj : Nat) : SState :=
  let jid := (alookup hobj s.thread_to_id).getD 0
  let t2i := aemplace hobj 0 s.thread_to_id
  let tm1 := tvmCreate tid s.thread_vc
  let tvc := tvmGet tid s.thread_vc
  let tm2 := tvmCreate jid tm1
  let jvc := (alookup jid tm2).getD []
  let tm3 := aset tid (svcJoin tvc jvc) tm2
  let jvc2 := (alookup jid tm3).getD []
  let tm4 := aset jid (svcSet jid (svcVal jid jvc2 + 1) (svcCreate jid jvc2)) tm3
  { s with
      thread_to_id := t2i
      thread_vc := tm4 }

/-- `NoRaceForWrite(tid, mem_addr)`:
`read_vc[mem_addr] <= thread_vc[tid] && write_vc[mem_addr] <=
thread_vc[tid]` — `&&` short-circuits, so `write_vc[mem_addr]` is only
read (and its entry only created) when the first comparison is true.
Undefined behavior inside `operator<=` propagates as `none`. -/
def sNoRaceForWrite (s : SState) (tid addr : Nat) : Option (Bool × SState) :=
  let rm := aemplace addr ([] : SVC) s.read_vc
  let rvc := (alookup addr rm).getD []
  let tm := tvmCreate tid s.thread_vc
  let tvc := tvmGet tid s.thread_vc
  match svcLe rvc tvc with
  | none => none
  | some false => some (false, { s with read_vc := rm, thread_vc := tm })
  | some true =>
      let wm := aemplace addr ([] : SVC) s.write_vc
      let wvc := (alookup addr wm).getD []
      (svcLe wvc tvc).map fun b =>
        (b, { s with read_vc := rm, thread_vc := tm, write_vc := wm })

/-- `NoRaceForRead(tid, mem_addr)`:
`write_vc[mem_addr] <= thread_vc[tid]`. -/
def sNoRaceForRead (s : SState) (tid addr : Nat) : Option (Bool × SState) :=
  let wm := aemplace addr ([] : SVC) s.write_vc
  let wvc := (alookup addr wm).getD []
  let tm := tvmCreate tid s.thread_vc
  let tvc := tvmGet tid s.thread_vc
  (svcLe wvc tvc).map fun b =>
    (b, { s with write_vc := wm, thread_vc := tm })

/-- `CheckOverflow(ins_addr, mem_addr, is_write)`, analysis part: the
watch-set guard `if (read_vc.count(mem_addr) == 0) return;` drops
accesses to unwatched addresses, else `Write` + `NoRaceForWrite` or
`Read` + `NoRaceForRead` run and a race report is emitted when the
predicate fails.  Returns the new state and the report, `none` marking
an undefined execution inside `operator<=`. -/
def sCheckOverflow (s : SState) (tid addr : Nat) (is_write : Bool) :
    Option (SState × Option AccessKind) :=
  if (alookup addr s.read_vc).isNone then some (s, none)
  else if is_write then
    (sNoRaceForWrite (sWrite s tid addr) tid addr).map fun p =>
      (p.2, if p.1 then none else some AccessKind.write)
  else
    (sNoRaceForRead (sRead s tid addr) tid addr).map fun p =>
      (p.2, if p.1 then none else some AccessKind.read)

/-! ## Lemmas about the sparse clock maps -/

theorem svcFind_svcSet_self (k : Nat) (v : Int) (m : SVC) :
    svcFind k (svcSet k v m) = some v := by
  induction m with
  | nil => simp [svcSet, svcFind]
  | cons p m ih =>
    obtain ⟨k1, v1⟩ := p
    by_cases h : k = k1
    · subst h
      simp [svcSet, svcFind]
    · by_cases h2 : k < k1
      · simp [svcSet, svcFind, h, h2]
      · simp [svcSet, svcFind, h, h2, ih, Ne.symm h]

theorem svcFind_svcSet_ne {k k' : Nat} (h : k' ≠ k) (v : Int) (m : SVC) :
    svcFind k (svcSet k' v m) = svcFind k m := by
  induction m with
  | nil => simp [svcSet, svcFind, h]
  | cons p m ih =>
    obtain ⟨k1, v1⟩ := p
    by_cases h1 : k' = k1
    · subst h1
      simp [svcSet, svcFind, h]
    · by_cases h2 : k' < k1
      · simp [svcSet, svcFind, h1, h2, h]
      · simp [svcSet, svcFind, h1, h2, ih]

theorem svcFind_svcCreate_self (k : Nat) (m : SVC) :
    svcFind k (svcCreate k m) = some (svcVal k m) := by
  unfold svcCreate svcVal
  cases h : svcFind k m with
  | some v => simp [h]
  | none => simp [h, svcFind_svcSet_self]

theorem svcFind_svcCreate_ne {k k' : Nat} (h : k' ≠ k) (m : SVC) :
    svcFind k (svcCreate k' m) = svcFind k m := by
  unfold svcCreate
  cases h1 : svcFind k' m with
  | some v => rfl
  | none => simp [svcFind_svcSet_ne h]

theorem svcVal_svcCreate_self (k : Nat) (m : SVC) :
    svcVal k (svcCreate k m) = svcVal k m := by
  simp [svcVal, svcFind_svcCreate_self]

theorem svcFind_eq_none_of_not_mem {k : Nat} {m : SVC}
    (h : k ∉ m.map Prod.fst) : svcFind k m = none := by
  induction m with
  | nil => rfl
  | cons p m ih =>
    obtain ⟨k1, v1⟩ := p
    simp only [List.map_cons, List.mem_cons] at h
    push_neg at h
    obtain ⟨h1, h2⟩ := h
    simp [svcFind, Ne.symm h1, ih h2]

theorem mem_of_svcFind_eq_some {k : Nat} {v : Int} {m : SVC}
    (h : svcFind k m = some v) : (k, v) ∈ m := by
  induction m with
  | nil => simp [svcFind] at h
  | cons p m ih =>
    obtain ⟨k1, v1⟩ := p
    by_cases h1 : k1 = k
    · subst h1
      simp [svcFind] at h
      simp [h]
    · simp only [svcFind, if_neg h1] at h
      exact List.mem_cons_of_mem _ (ih h)

/-- Pointwise characterization of `VC::operator|=`: joining `lhs` with
a clock `rhs` whose keys are distinct yields, at each key, the maximum
of the (created-as-0) lhs value and the rhs value, and leaves keys
outside `rhs` untouched. -/
theorem svcFind_svcJoin :
    ∀ (rhs : List (Nat × Int)), (rhs.map Prod.fst).Nodup →
    ∀ (lhs : SVC) (k : Nat),
    svcFind k (svcJoin lhs rhs) =
      match svcFind k rhs with
      | none => svcFind k lhs
      | some v => some (max (svcVal k lhs) v) := by
  intro rhs
  induction rhs with
  | nil =>
    intro _ lhs k
    simp [svcJoin, svcFind]
  | cons p rest ih =>
    intro hn lhs k
    obtain ⟨k1, v1⟩ := p
    simp only [List.map_cons, List.nodup_cons] at hn
    obtain ⟨hk1, hrest⟩ := hn
    simp only [svcJoin]
    rw [ih hrest]
    by_cases hkk : k1 = k
    · subst hkk
      have hnone : svcFind k1 rest = none := svcFind_eq_none_of_not_mem hk1
      rw [hnone]
      simp only [svcFind, if_pos rfl]
      rw [svcVal_svcCreate_self]
      by_cases hlt : svcVal k1 lhs < v1
      · rw [if_pos hlt, svcFind_svcSet_self]
        simp [max_eq_right (le_of_lt hlt)]
      · rw [if_neg hlt, svcFind_svcCreate_self]
        simp [max_eq_left (le_of_not_lt hlt)]
    · simp only [svcFind, if_neg hkk]
      have hstep_find :
          svcFind k (if svcVal k1 (svcCreate k1 lhs) < v1
            then svcSet k1 v1 (svcCreate k1 lhs) else svcCreate k1 lhs)
          = svcFind k lhs := by
        split
        · rw [svcFind_svcSet_ne hkk, svcFind_svcCreate_ne hkk]
        · rw [svcFind_svcCreate_ne hkk]
      cases hr : svcFind k rest with
      | none => simp only [hstep_find]
      | some v =>
        have hv : svcVal k (if svcVal k1 (svcCreate k1 lhs) < v1
            then svcSet k1 v1 (svcCreate k1 lhs) else svcCreate k1 lhs) = svcVal k lhs := by
          unfold svcVal
          split
          · rw [svcFind_svcSet_ne hkk, svcFind_svcCreate_ne hkk]
          · rw [svcFind_svcCreate_ne hkk]
        rw [hv]

/-! ## Claims about the sparse variant -/

/-- C6: the sparse happens-before comparison is *not* a total function.
On `a = {T0 ↦ 0}` and `b = {}` (an entry with logical time 0 whose
thread is absent from the rhs), the loop's first guard
`it == rhs.end() && v > 0` is false because `v = 0`, so control falls
into `else if (v > it->second)` and dereferences the past-the-end
iterator: undefined behavior, embedded as `none`.  The claimed
semantics — true iff every thread's component of `a` is at most that of
`b`, absent threads reading as 0 — holds at this input (second
conjunct), so a correct implementation would return `true` here. -/
theorem c6_le_end_deref :
    svcLe [(0, 0)] [] = none ∧
    (∀ t : Nat, svcVal t [(0, 0)] ≤ svcVal t ([] : SVC)) := by
  constructor
  · rfl
  · intro t
    by_cases ht : (0 : Nat) = t <;> simp [svcVal, svcFind, ht]

/-- C9: when a watch set is used, a read or write on an address outside
it is silently ignored.  `CheckOverflow` returns at
`read_vc.count(mem_addr) == 0` before taking any lock or touching any
table: the state is returned unchanged — no read-VC, write-VC or
thread-VC entry is created or modified — and no race is reported. -/
theorem c9_watchset_ignores_unregistered (s : SState) (tid addr : Nat) (w : Bool)
    (h : alookup addr s.read_vc = none) :
    sCheckOverflow s tid addr w = some (s, none) := by
  unfold sCheckOverflow
  rw [h]
  simp

def c9ws : SState := sRead emptyS 0 7

/-- C9, witness: in a state whose watch set holds address 7 only, a
write by thread 3 to the unwatched address 5 leaves the state untouched
and reports nothing. -/
theorem c9_witness :
    alookup 5 c9ws.read_vc = none ∧
    sCheckOverflow c9ws 3 5 true = some (c9ws, none) :=
  ⟨by decide, c9_watchset_ignores_unregistered c9ws 3 5 true (by decide)⟩

/-- C7, counterexample: `Fork`'s `static THREADID last_id` counter is
incremented without regard to thread ids already used by other events,
so the "fresh" id can collide with one in use.  After `Release(1, 100)`
the id 1 owns the clock `{T1 ↦ 2}`; `Fork(0, 7)` then allocates
`u = last_id + 1 = 1`, merges into the *existing* clock, and leaves
`C[1][1] = 2` — not 1, as the claim's `C[u][u] ← 1` requires — so the
allocated id was not fresh and the child clock is not a copy of the
parent's with own component 1. -/
theorem c7_counterexample :
    (sFork (sRelease emptyS 1 100) 0 7).last_id = 1 ∧
    alookup 1 (sRelease emptyS 1 100).thread_vc ≠ none ∧
    svcVal 1 ((alookup 1 (sFork (sRelease emptyS 1 100) 0 7).thread_vc).getD [])
      = 2 := by
  decide

/-- C7, amended: `Fork(t, child)` draws `u = last_id + 1` from a
monotonically increasing counter — so ids of successive forks are
distinct and never reused, though `u` may coincide with a thread id
already introduced by other events.  Provided `u` is genuinely fresh
(no thread clock exists for `u` and `u` does not occur in `C[t]`) and
`C[t]`'s entries are the nonnegative values clocks always hold, the
child clock equals a copy of `C[t]` with `C[u][u] = 1`, the handle is
bound to `u`, `C[t][t]` is incremented by one, and no other clock or
table changes. -/
theorem c7_fork_amended (s : SState) (t h k : Nat) (ct : SVC)
    (hu : alookup (s.last_id + 1) s.thread_vc = none)
    (ht : alookup t s.thread_vc = some ct)
    (hne : s.last_id + 1 ≠ t)
    (hct : svcFind (s.last_id + 1) ct = none)
    (hnodup : (ct.map Prod.fst).Nodup)
    (hnn : ∀ p ∈ ct, 0 ≤ p.2) :
    (sFork s t h).last_id = s.last_id + 1 ∧
    alookup h (sFork s t h).thread_to_id = some (s.last_id + 1) ∧
    svcFind k ((alookup (s.last_id + 1) (sFork s t h).thread_vc).getD [])
      = (if k = s.last_id + 1 then some 1 else svcFind k ct) ∧
    svcFind k ((alookup t (sFork s t h).thread_vc).getD [])
      = (if k = t then some (svcVal t ct + 1) else svcFind k ct) ∧
    (k ≠ t → k ≠ s.last_id + 1 →
      alookup k (sFork s t h).thread_vc = alookup k s.thread_vc) ∧
    (sFork s t h).read_vc = s.read_vc ∧
    (sFork s t h).write_vc = s.write_vc ∧
    (sFork s t h).lock_vc = s.lock_vc := by
  have h1 : tvmCreate (s.last_id + 1) s.thread_vc
      = aset (s.last_id + 1) (svcSet (s.last_id + 1) 1 []) s.thread_vc := by
    unfold tvmCreate
    rw [hu]
  have h2 : tvmGet (s.last_id + 1) s.thread_vc = svcSet (s.last_id + 1) 1 [] := by
    unfold tvmGet
    rw [h1, alookup_aset_self]
    rfl
  have h3 : tvmCreate t (aset (s.last_id + 1) (svcSet (s.last_id + 1) 1 []) s.thread_vc)
      = aset (s.last_id + 1) (svcSet (s.last_id + 1) 1 []) s.thread_vc := by
    unfold tvmCreate
    rw [alookup_aset_ne hne, ht]
  have h4 : alookup t (aset (s.last_id + 1) (svcSet (s.last_id + 1) 1 []) s.thread_vc)
      = some ct := by
    rw [alookup_aset_ne hne, ht]
  have h5 : alookup t (aset (s.last_id + 1)
        (svcJoin (svcSet (s.last_id + 1) 1 []) ct)
        (aset (s.last_id + 1) (svcSet (s.last_id + 1) 1 []) s.thread_vc))
      = some ct := by
    rw [alookup_aset_ne hne]
    exact h4
  have hfork : sFork s t h = { s with
      last_id := s.last_id + 1
      thread_to_id := aset h (s.last_id + 1) s.thread_to_id
      thread_vc := aset t (svcSet t (svcVal t ct + 1) (svcCreate t ct))
        (aset (s.last_id + 1) (svcJoin (svcSet (s.last_id + 1) 1 []) ct)
          (aset (s.last_id + 1) (svcSet (s.last_id + 1) 1 []) s.thread_vc)) } := by
    unfold sFork
    dsimp only
    rw [h1, h2, h3, h4]
    simp only [Option.getD_some]
    rw [h5]
    simp only [Option.getD_some]
  refine ⟨by rw [hfork], by rw [hfork]; exact alookup_aset_self _ _ _, ?_, ?_, ?_,
          by rw [hfork], by rw [hfork], by rw [hfork]⟩
  · rw [hfork]
    show svcFind k ((alookup (s.last_id + 1) (aset t _ (aset (s.last_id + 1) _ _))).getD [])
      = _
    rw [alookup_aset_ne (Ne.symm hne), alookup_aset_self]
    show svcFind k (svcJoin (svcSet (s.last_id + 1) 1 []) ct) = _
    rw [svcFind_svcJoin ct hnodup]
    by_cases hk : k = s.last_id + 1
    · subst hk
      rw [hct, if_pos rfl]
      exact svcFind_svcSet_self _ _ _
    · rw [if_neg hk]
      cases hf : svcFind k ct with
      | none =>
        dsimp only
        rw [svcFind_svcSet_ne (fun hh => hk hh.symm)]
        rfl
      | some v =>
        dsimp only
        have h0 : svcVal k (svcSet (s.last_id + 1) 1 []) = 0 := by
          unfold svcVal
          rw [svcFind_svcSet_ne (fun hh => hk hh.symm)]
          rfl
        rw [h0, max_eq_right (hnn (k, v) (mem_of_svcFind_eq_some hf))]
  · rw [hfork]
    show svcFind k ((alookup t (aset t _ _)).getD []) = _
    rw [alookup_aset_self]
    show svcFind k (svcSet t (svcVal t ct + 1) (svcCreate t ct)) = _
    by_cases hk : k = t
    · subst hk
      rw [if_pos rfl]
      exact svcFind_svcSet_self _ _ _
    · rw [if_neg hk, svcFind_svcSet_ne (fun hh => hk hh.symm),
          svcFind_svcCreate_ne (fun hh => hk hh.symm)]
  · intro hkt hku
    rw [hfork]
    show alookup k (aset t _ (aset (s.last_id + 1) _ (aset (s.last_id + 1) _ _)))
      = alookup k s.thread_vc
    rw [alookup_aset_ne (Ne.symm hkt), alookup_aset_ne (Ne.symm hku),
        alookup_aset_ne (Ne.symm hku)]

def c7ws : SState := sRead emptyS 0 5

/-- C7, witness: after one read by thread 0, forking from thread 0
with fresh id 1 copies `C[0] = {T0 ↦ 1}` into the child, sets
`C[1][1] = 1`, increments `C[0][0]`, and touches nothing else. -/
theorem c7_witness :
    (sFork c7ws 0 9).last_id = 1 ∧
    alookup 9 (sFork c7ws 0 9).thread_to_id = some 1 ∧
    svcFind 1 ((alookup 1 (sFork c7ws 0 9).thread_vc).getD [])
      = (if 1 = 1 then some 1 else svcFind 1 [(0, 1)]) ∧
    svcFind 1 ((alookup 0 (sFork c7ws 0 9).thread_vc).getD [])
      = (if 1 = 0 then some (svcVal 0 [(0, 1)] + 1) else svcFind 1 [(0, 1)]) ∧
    ((1 : Nat) ≠ 0 → (1 : Nat) ≠ 1 →
      alookup 1 (sFork c7ws 0 9).thread_vc = alookup 1 c7ws.thread_vc) ∧
    (sFork c7ws 0 9).read_vc = c7ws.read_vc ∧
    (sFork c7ws 0 9).write_vc = c7ws.write_vc ∧
    (sFork c7ws 0 9).lock_vc = c7ws.lock_vc :=
  c7_fork_amended c7ws 0 9 1 [(0, 1)] (by decide) (by decide) (by decide)
    (by decide) (by decide) (by decide)

/-- C8, counterexample: a join whose child handle was never bound by a
fork is *not* dropped.  On the empty initial state, `Join(1, 7)` with
the unbound handle 7 reads `thread_to_id[7]` through `operator[]`,
which inserts the binding `7 ↦ 0`, and then performs a full join with
thread 0: the state changes, contradicting the claim that no state
changes. -/
theorem c8_counterexample :
    (sJoin emptyS 1 7).thread_to_id = [(7, 0)] ∧
    sJoin emptyS 1 7 ≠ emptyS := by
  decide

/-- C8, amended: a join with an unbound child handle is treated as a
join with thread id 0 instead of being dropped: reading
`thread_to_id[thread_obj]` inserts the binding `handle ↦ 0`, after
which `C[t]` is merged (pointwise max) with `C[0]` and `C[0][0]` is
incremented; the other tables are untouched, and no diagnostic is
emitted (`Join` produces no output). -/
theorem c8_join_amended (s : SState) (t h k w : Nat) (ct c0 : SVC)
    (hh : alookup h s.thread_to_id = none)
    (ht0 : t ≠ 0)
    (hct : alookup t s.thread_vc = some ct)
    (hc0 : alookup 0 s.thread_vc = some c0)
    (hnodup : (c0.map Prod.fst).Nodup) :
    (sJoin s t h).thread_to_id = aset h 0 s.thread_to_id ∧
    svcFind k ((alookup t (sJoin s t h).thread_vc).getD [])
      = (match svcFind k c0 with
         | none => svcFind k ct
         | some v => some (max (svcVal k ct) v)) ∧
    svcFind k ((alookup 0 (sJoin s t h).thread_vc).getD [])
      = (if k = 0 then some (svcVal 0 c0 + 1) else svcFind k c0) ∧
    (w ≠ t → w ≠ 0 → alookup w (sJoin s t h).thread_vc = alookup w s.thread_vc) ∧
    (sJoin s t h).read_vc = s.read_vc ∧
    (sJoin s t h).write_vc = s.write_vc ∧
    (sJoin s t h).lock_vc = s.lock_vc := by
  have e1 : tvmCreate t s.thread_vc = s.thread_vc := by
    unfold tvmCreate
    rw [hct]
  have e2 : tvmGet t s.thread_vc = ct := by
    unfold tvmGet
    rw [e1, hct]
    rfl
  have e3 : tvmCreate 0 s.thread_vc = s.thread_vc := by
    unfold tvmCreate
    rw [hc0]
  have e4 : alookup 0 (aset t (svcJoin ct c0) s.thread_vc) = some c0 := by
    rw [alookup_aset_ne ht0, hc0]
  have e5 : aemplace h 0 s.thread_to_id = aset h 0 s.thread_to_id := by
    unfold aemplace
    rw [hh]
  have hjoin : sJoin s t h = { s with
      thread_to_id := aset h 0 s.thread_to_id
      thread_vc := aset 0 (svcSet 0 (svcVal 0 c0 + 1) (svcCreate 0 c0))
        (aset t (svcJoin ct c0) s.thread_vc) } := by
    unfold sJoin
    dsimp only
    rw [hh]
    simp only [Option.getD_none]
    rw [e5, e1, e2, e3, hc0]
    simp only [Option.getD_some]
    rw [e4]
    simp only [Option.getD_some]
  refine ⟨by rw [hjoin], ?_, ?_, ?_, by rw [hjoin], by rw [hjoin], by rw [hjoin]⟩
  · rw [hjoin]
    show svcFind k ((alookup t (aset 0 _ (aset t _ _))).getD []) = _
    rw [alookup_aset_ne (Ne.symm ht0), alookup_aset_self]
    show svcFind k (svcJoin ct c0) = _
    rw [svcFind_svcJoin c0 hnodup]
  · rw [hjoin]
    show svcFind k ((alookup 0 (aset 0 _ _)).getD []) = _
    rw [alookup_aset_self]
    show svcFind k (svcSet 0 (svcVal 0 c0 + 1) (svcCreate 0 c0)) = _
    by_cases hk : k = 0
    · subst hk
      rw [if_pos rfl]
      exact svcFind_svcSet_self _ _ _
    · rw [if_neg hk, svcFind_svcSet_ne (fun hh1 => hk hh1.symm),
          svcFind_svcCreate_ne (fun hh1 => hk hh1.symm)]
  · intro hwt hw0
    rw [hjoin]
    show alookup w (aset 0 _ (aset t _ _)) = alookup w s.thread_vc
    rw [alookup_aset_ne (Ne.symm hw0), alookup_aset_ne (Ne.symm hwt)]

def c8ws : SState := sRead (sRead emptyS 0 5) 1 5

/-- C8, witness: in a state where threads 0 and 1 both have clocks and
handle 7 is unbound, `Join(1, 7)` binds 7 to thread 0, merges `C[0]`
into `C[1]`, increments `C[0][0]` and leaves everything else alone. -/
theorem c8_witness :
    (sJoin c8ws 1 7).thread_to_id = aset 7 0 c8ws.thread_to_id ∧
    svcFind 0 ((alookup 1 (sJoin c8ws 1 7).thread_vc).getD [])
      = (match svcFind 0 [(0, 1)] with
         | none => svcFind 0 [(1, 1)]
         | some v => some (max (svcVal 0 [(1, 1)]) v)) ∧
    svcFind 0 ((alookup 0 (sJoin c8ws 1 7).thread_vc).getD [])
      = (if (0 : Nat) = 0 then some (svcVal 0 [(0, 1)] + 1) else svcFind 0 [(0, 1)]) ∧
    ((2 : Nat) ≠ 1 → (2 : Nat) ≠ 0 →
      alookup 2 (sJoin c8ws 1 7).thread_vc = alookup 2 c8ws.thread_vc) ∧
    (sJoin c8ws 1 7).read_vc = c8ws.read_vc ∧
    (sJoin c8ws 1 7).write_vc = c8ws.write_vc ∧
    (sJoin c8ws 1 7).lock_vc = c8ws.lock_vc :=
  c8_join_amended c8ws 1 7 0 2 [(1, 1)] [(0, 1)] (by decide) (by decide)
    (by decide) (by decide) (by decide)
